import Mathlib

/-!
Verification of the `datalogging` in-memory logger (`datalogging/logger.py`).

The tree of `LogNode`s is embedded as a purely functional value: Python dicts
(which preserve insertion order) become association lists, in-place mutation of
a node becomes a functional update of the subtree rooted at that node, and the
logged Python values become the inductive type `Val`.  Operations that can
raise return `Except String`; operations that may mutate the tree return the
tree after the call together with their result, so that "does not mutate"
becomes "returns the input tree unchanged".
-/

namespace Datalogging

/-- A logged Python value, as far as the logger inspects it: an `int` stands
for any non-iterable scalar; strings, lists and dicts are the iterable
containers the code can encounter (`isinstance(val, Iterable)`). -/
inductive Val where
  | int : Int → Val
  | str : String → Val
  | list : List Val → Val
  | dict : List (String × Val) → Val

/-- Mirrors `isinstance(val, Iterable)`: strings, lists and dicts are
iterable, a plain scalar is not. -/
def Val.iterable : Val → Bool
  | .int _ => false
  | .str _ => true
  | .list _ => true
  | .dict _ => true

/-- The sequence produced by iterating a Python value: a string yields its
one-character strings, a list its elements, a dict its keys. -/
def Val.elems : Val → List Val
  | .int _ => []
  | .str s => s.data.map (fun c => Val.str (String.mk [c]))
  | .list l => l
  | .dict m => m.map (fun kv => Val.str kv.1)

/-- Lookup in an insertion-ordered dict modelled as an association list
(first occurrence wins, as in a well-formed dict every key occurs once). -/
def Dict.find? {α : Type} : List (String × α) → String → Option α
  | [], _ => none
  | (k, v) :: rest, key => if k = key then some v else Dict.find? rest key

/-- Membership test of a dict key (`key in d`). -/
def Dict.mem {α : Type} (l : List (String × α)) (key : String) : Bool :=
  (Dict.find? l key).isSome

/-- Python dict assignment `d[key] = val`: replaces the value at an existing
key in place (keeping its position), else appends the new pair at the end. -/
def Dict.insert {α : Type} : List (String × α) → String → α → List (String × α)
  | [], key, val => [(key, val)]
  | (k, v) :: rest, key, val =>
      if k = key then (k, val) :: rest else (k, v) :: Dict.insert rest key val

/-- Models `lst = d.setdefault(key, dflt)` followed by an in-place update of
`lst` to `f lst`: the entry keeps its position if present, else the pair is
appended at the end with `f dflt`. -/
def Dict.updD {α : Type} (dflt : α) : List (String × α) → String → (α → α) → List (String × α)
  | [], key, f => [(key, f dflt)]
  | (k, v) :: rest, key, f =>
      if k = key then (k, f v) :: rest else (k, v) :: Dict.updD dflt rest key f

/-- A node of the logging tree: `data` maps keys to lists of logged values,
`children` maps keys to sub-nodes (`LogNode.__init__`). -/
inductive LogNode where
  | mk (data : List (String × List Val)) (children : List (String × LogNode))

/-- The `data` mapping of a node. -/
def LogNode.data : LogNode → List (String × List Val)
  | .mk d _ => d

/-- The `children` mapping of a node. -/
def LogNode.children : LogNode → List (String × LogNode)
  | .mk _ cs => cs

/-- The result of `LogNode.parse`: a nested dict whose values are either
lists of logged values or further nested dicts. -/
inductive PVal where
  | vals : List Val → PVal
  | dict : List (String × PVal) → PVal

mutual

/-- `LogNode.clear`: recursively clears every child, then replaces `data`
with a fresh empty dict; `children` keeps its keys and node structure. -/
def LogNode.clear : LogNode → LogNode
  | .mk _ cs => .mk [] (clearChildren cs)

/-- The recursive calls of `LogNode.clear` over the `children` dict. -/
def clearChildren : List (String × LogNode) → List (String × LogNode)
  | [] => []
  | (k, c) :: rest => (k, LogNode.clear c) :: clearChildren rest

end

mutual

/-- `LogNode.parse`: starts from a copy of `data`, then for each child in
order assigns `result[key] = child.parse()` when that recursive export is
non-empty (the truthiness test `if parsed:`). -/
def LogNode.parse : LogNode → List (String × PVal)
  | .mk data cs => parseChildren (data.map (fun kv => (kv.1, PVal.vals kv.2))) cs

/-- The loop of `LogNode.parse` over the `children` dict, carrying the
`result` dict built so far. -/
def parseChildren : List (String × PVal) → List (String × LogNode) → List (String × PVal)
  | acc, [] => acc
  | acc, (k, c) :: rest =>
      let pc := LogNode.parse c
      parseChildren (if pc.isEmpty then acc else Dict.insert acc k (PVal.dict pc)) rest

end

mutual

/-- True when a node or any of its descendants holds at least one data
entry (this is the semantic reading of "no data anywhere in that subtree"
from the specification of empty-branch pruning). -/
def LogNode.hasData : LogNode → Bool
  | .mk d cs => !d.isEmpty || hasDataChildren cs

/-- `LogNode.hasData` over a `children` dict. -/
def hasDataChildren : List (String × LogNode) → Bool
  | [] => false
  | (_, c) :: rest => LogNode.hasData c || hasDataChildren rest

end

/-- Python `str.split('/')` on the character list of a (possibly empty)
string: every `'/'` starts a new segment, empty segments are kept. -/
def splitSlash : List Char → List (List Char)
  | [] => [[]]
  | c :: rest =>
      if c = '/' then [] :: splitSlash rest
      else
        match splitSlash rest with
        | [] => [[c]]
        | s :: ss => (c :: s) :: ss

/-- Python `str.split('/', 1)` when a separator is present: the characters
before the first `'/'` and the characters after it. -/
def splitFirstSlash : List Char → Option (List Char × List Char)
  | [] => none
  | c :: rest =>
      if c = '/' then some ([], rest)
      else (splitFirstSlash rest).map (fun ab => (c :: ab.1, ab.2))

/-- `_split_vpath`: splits at the first separator, always returning exactly
two strings; a path without separator maps to `(p, "")`. -/
def _split_vpath (p : String) : String × String :=
  match splitFirstSlash p.data with
  | some ab => (String.mk ab.1, String.mk ab.2)
  | none => (p, "")

/-- `_rsplit_vpath`: splits at the last separator (the first one of the
reversed character list), always returning exactly two strings; a path
without separator maps to `("", p)`. -/
def _rsplit_vpath (p : String) : String × String :=
  match splitFirstSlash p.data.reverse with
  | some ab => (String.mk ab.2.reverse, String.mk ab.1.reverse)
  | none => ("", p)

/-- The segment list `vpath.split('/')` of a virtual path. -/
def vsegs (p : String) : List String := (splitSlash p.data).map String.mk

/-- Pure walk through `children` along a segment list (used by
`__contains__`, which never mutates). -/
def walk? : LogNode → List String → Option LogNode
  | n, [] => some n
  | n, k :: rest =>
      match Dict.find? n.children k with
      | some c => walk? c rest
      | none => none

/-- The loop of `_traverse`: `current_node.children.setdefault(key, LogNode())`
for each segment.  Returns the tree after the walk together with the node
the walk ends on (a missing key inserts a fresh empty node at the end of
the `children` dict, exactly like `dict.setdefault`). -/
def setdefaultWalk : LogNode → List String → LogNode × LogNode
  | n, [] => (n, n)
  | n, k :: rest =>
      match Dict.find? n.children k with
      | some c =>
          let r := setdefaultWalk c rest
          (.mk n.data (Dict.insert n.children k r.1), r.2)
      | none =>
          let r := setdefaultWalk (.mk [] []) rest
          (.mk n.data (Dict.insert n.children k r.1), r.2)

/-- The `setdefault` walk of `_traverse(…, create=True)` followed by an
in-place update of the node it reaches — the shape in which `_do_data_op`
uses traversal with creation. -/
def createWalkUpd : LogNode → List String → (LogNode → LogNode) → LogNode
  | n, [], f => f n
  | n, k :: rest, f =>
      let c := (Dict.find? n.children k).getD (.mk [] [])
      .mk n.data (Dict.insert n.children k (createWalkUpd c rest f))

/-- Functional update of the subtree at an existing node of the tree: this
is how an in-place mutation performed through a child logger's node
reference is expressed on the shared tree.  (If the path dangles nothing
happens; a live child logger's path never dangles, since nodes are never
removed.) -/
def updateAt : LogNode → List String → (LogNode → LogNode) → LogNode
  | n, [], f => f n
  | n, k :: rest, f =>
      match Dict.find? n.children k with
      | some c => .mk n.data (Dict.insert n.children k (updateAt c rest f))
      | none => n

/-- `Logger.__contains__`: the empty path is always contained; otherwise
walk all-but-last segments through `children` and test the last segment
against both `children` and `data` of the node reached. -/
def Logger.contains (n : LogNode) (vpath : String) : Bool :=
  if vpath = "" then true
  else
    let segs := vsegs vpath
    match walk? n segs.dropLast with
    | some m => Dict.mem m.children (segs.getLastD "") || Dict.mem m.data (segs.getLastD "")
    | none => false

/-- `Logger._traverse`: the empty path returns the root; without `create`
the containment check guards a `KeyError`; then the `setdefault` walk runs.
The result pairs the tree after the call with the node returned. -/
def Logger._traverse (n : LogNode) (vpath : String) (create : Bool) : Except String (LogNode × LogNode) :=
  if vpath = "" then .ok (n, n)
  else if !create && !(Logger.contains n vpath) then
    .error ("vpath " ++ vpath ++ " does not exist.")
  else .ok (setdefaultWalk n (vsegs vpath))

/-- `Logger.__getitem__`, i.e. `_do_data_op(vpath, identity, create=False)`:
`_rsplit_vpath` gives (directory, data key); the directory is traversed
without creation, then `node.data[data_key]` is read (raising `KeyError`
when the key is absent from `data`). -/
def Logger.getitem (n : LogNode) (vpath : String) : Except String (LogNode × List Val) :=
  let dk := _rsplit_vpath vpath
  match Logger._traverse n dk.1 false with
  | .error e => .error e
  | .ok nm =>
      match Dict.find? nm.2.data dk.2 with
      | some lst => .ok (nm.1, lst)
      | none => .error ("KeyError: " ++ dk.2)

/-- `Logger.get`: containment check, then indexed access.  `none` in the
result stands for the caller-supplied default.  (The `isinstance(…, list)`
test of the source always succeeds on a value fetched from `data`, whose
values are lists.) -/
def Logger.get (n : LogNode) (vpath : String) : Except String (LogNode × Option (List Val)) :=
  if Logger.contains n vpath then
    match Logger.getitem n vpath with
    | .error e => .error e
    | .ok nl => .ok (nl.1, some nl.2)
  else .ok (n, none)

/-- The directory segments `_do_data_op` hands to `_traverse`: the
`_rsplit_vpath` directory split on `/`, or no segments at all when the
directory part is the empty string (which `_traverse` maps to the root
without splitting). -/
def dirSegs (p : String) : List String :=
  if (_rsplit_vpath p).1 = "" then [] else vsegs (_rsplit_vpath p).1

/-- The node the `setdefault` walk of `_traverse(…, create=True)` ends on:
follows existing children and continues through fresh empty nodes where a
key is missing. -/
def reachD : LogNode → List String → LogNode
  | n, [] => n
  | n, k :: rest => reachD ((Dict.find? n.children k).getD (.mk [] [])) rest

/-- `_do_data_op(vpath, op, create=True)`: traverse the directory with
creation and apply `f` in place to `node.data.setdefault(data_key, [])`. -/
def Logger._do_data_op_create (n : LogNode) (vpath : String) (f : List Val → List Val) : LogNode :=
  createWalkUpd n (dirSegs vpath)
    (fun m => .mk (Dict.updD [] m.data (_rsplit_vpath vpath).2 f) m.children)

/-- The in-place list operation `_log_vpaths_vals` chooses:
`list.extend` for an iterable value, `list.append` otherwise. -/
def logOp (v : Val) (lst : List Val) : List Val :=
  if v.iterable then lst ++ v.elems else lst ++ [v]

/-- `Logger._log_vpaths_vals`: one `_do_data_op(…, create=True)` per
(vpath, value) pair, in mapping order. -/
def Logger._log_vpaths_vals (n : LogNode) (m : List (String × Val)) : LogNode :=
  m.foldl (fun acc kv => Logger._do_data_op_create acc kv.1 (logOp kv.2)) n

/-- `Logger.log(*args)`: exactly one argument (a vpath-to-value dict) or
exactly two arguments (a vpath string and a value) are accepted; any other
count raises the usage `TypeError` and the tree is untouched.  (A single
non-dict argument, or a non-string vpath, fails later inside the body; the
unreachable catch-all for lengths 1 and 2 is inert.) -/
def Logger.log (n : LogNode) (args : List Val) : Except String LogNode :=
  if 1 ≤ args.length ∧ args.length ≤ 2 then
    match args with
    | [Val.dict m] => .ok (Logger._log_vpaths_vals n m)
    | [_] => .error "AttributeError: the single argument is not a mapping"
    | [Val.str p, v] => .ok (Logger._log_vpaths_vals n [(p, v)])
    | [_, _] => .error "AttributeError: the vpath argument is not a string"
    | _ => .ok n
  else
    .error "Method has to be called with either one or two arguments."

/-- `Logger.make_child`: `_traverse(vpath, create=True)` (which never
fails); the result pairs the parent's tree after the call with the node
the new child logger wraps. -/
def Logger.make_child (n : LogNode) (vpath : String) : LogNode × LogNode :=
  if vpath = "" then (n, n) else setdefaultWalk n (vsegs vpath)

/-- `Logger.as_dict`: parse the root node. -/
def Logger.as_dict (n : LogNode) : List (String × PVal) :=
  LogNode.parse n

/-- `Logger.clear` called on a logger whose root sits at path `base` of the
shared tree `w`: the shared tree after `self._root.clear()`. -/
def Logger.clearAt (w : LogNode) (base : List String) : LogNode :=
  updateAt w base LogNode.clear

/-- `Logger.log(p, v)` called on a logger whose root sits at path `base` of
the shared tree `w`: the shared tree after the call. -/
def Logger.logAt (w : LogNode) (base : List String) (p : String) (v : Val) : LogNode :=
  updateAt w base (fun sub => Logger._log_vpaths_vals sub [(p, v)])

/-- `Logger.get(p)` called on a logger whose root sits at path `base` of
the shared tree `w`. -/
def Logger.getAt (w : LogNode) (base : List String) (p : String) :
    Option (Except String (LogNode × Option (List Val))) :=
  (walk? w base).map (fun sub => Logger.get sub p)

/-! ## Basic lemmas about the dict model -/

theorem LogNode.eta : ∀ n : LogNode, LogNode.mk n.data n.children = n
  | .mk _ _ => rfl

@[simp]
theorem Dict.find?_insert_self {α : Type} (l : List (String × α)) (k : String) (v : α) :
    Dict.find? (Dict.insert l k v) k = some v := by
  induction l with
  | nil => simp [Dict.insert, Dict.find?]
  | cons kv rest ih =>
    obtain ⟨k', v'⟩ := kv
    by_cases h : k' = k
    · simp [Dict.insert, Dict.find?, h]
    · simp [Dict.insert, Dict.find?, h, ih]

theorem Dict.find?_insert_ne {α : Type} (l : List (String × α)) {k' k : String} (v : α)
    (h : k' ≠ k) : Dict.find? (Dict.insert l k' v) k = Dict.find? l k := by
  induction l with
  | nil => simp [Dict.insert, Dict.find?, h]
  | cons kv rest ih =>
    obtain ⟨k₀, v₀⟩ := kv
    by_cases h0 : k₀ = k'
    · subst h0
      simp [Dict.insert, Dict.find?, h]
    · simp only [Dict.insert, if_neg h0, Dict.find?]
      by_cases h1 : k₀ = k <;> simp [h1, ih]

theorem Dict.insert_insert {α : Type} (l : List (String × α)) (k : String) (v w : α) :
    Dict.insert (Dict.insert l k v) k w = Dict.insert l k w := by
  induction l with
  | nil => simp [Dict.insert]
  | cons kv rest ih =>
    obtain ⟨k₀, v₀⟩ := kv
    by_cases h : k₀ = k <;> simp [Dict.insert, h, ih]

theorem Dict.insert_find?_eq {α : Type} {l : List (String × α)} {k : String} {v : α}
    (h : Dict.find? l k = some v) : Dict.insert l k v = l := by
  induction l with
  | nil => simp [Dict.find?] at h
  | cons kv rest ih =>
    obtain ⟨k₀, v₀⟩ := kv
    by_cases h0 : k₀ = k
    · simp only [Dict.find?, if_pos h0, Option.some.injEq] at h
      simp [Dict.insert, h0, h]
    · simp only [Dict.find?, if_neg h0] at h
      simp [Dict.insert, h0, ih h]

theorem Dict.insert_ne_nil {α : Type} (l : List (String × α)) (k : String) (v : α) :
    Dict.insert l k v ≠ [] := by
  cases l with
  | nil => simp [Dict.insert]
  | cons kv rest =>
    obtain ⟨k₀, v₀⟩ := kv
    by_cases h : k₀ = k <;> simp [Dict.insert, h]

theorem Dict.find?_updD {α : Type} (dflt : α) (l : List (String × α)) (k : String)
    (f : α → α) :
    Dict.find? (Dict.updD dflt l k f) k = some (f ((Dict.find? l k).getD dflt)) := by
  induction l with
  | nil => simp [Dict.updD, Dict.find?]
  | cons kv rest ih =>
    obtain ⟨k₀, v₀⟩ := kv
    by_cases h : k₀ = k <;> simp [Dict.updD, Dict.find?, h, ih]

theorem Dict.find?_map {α β : Type} (l : List (String × α)) (g : α → β) (k : String) :
    Dict.find? (l.map (fun kv => (kv.1, g kv.2))) k = (Dict.find? l k).map g := by
  induction l with
  | nil => simp [Dict.find?]
  | cons kv rest ih =>
    obtain ⟨k₀, v₀⟩ := kv
    by_cases h : k₀ = k <;> simp [Dict.find?, h, ih]

theorem Dict.find?_eq_of_mem_nodup {α : Type} {l : List (String × α)} {kv : String × α}
    (hnd : (l.map Prod.fst).Nodup) (hmem : kv ∈ l) : Dict.find? l kv.1 = some kv.2 := by
  induction l with
  | nil => simp at hmem
  | cons kv₀ rest ih =>
    obtain ⟨k₀, v₀⟩ := kv₀
    simp only [List.map_cons, List.nodup_cons] at hnd
    rcases List.mem_cons.mp hmem with h | h
    · subst h
      simp [Dict.find?]
    · have hne : k₀ ≠ kv.1 := by
        intro hk
        exact hnd.1 (hk ▸ List.mem_map.mpr ⟨kv, h, rfl⟩)
      simp [Dict.find?, hne, ih hnd.2 h]

/-! ## Lemmas about path splitting -/

theorem splitFirstSlash_eq_none {l : List Char} (h : '/' ∉ l) :
    splitFirstSlash l = none := by
  induction l with
  | nil => rfl
  | cons c rest ih =>
    simp only [List.mem_cons, not_or] at h
    simp [splitFirstSlash, Ne.symm h.1, ih h.2]

theorem splitFirstSlash_eq_some {l : List Char} {a b : List Char}
    (h : splitFirstSlash l = some (a, b)) : l = a ++ '/' :: b ∧ '/' ∉ a := by
  induction l generalizing a b with
  | nil => simp [splitFirstSlash] at h
  | cons c rest ih =>
    by_cases hc : c = '/'
    · subst hc
      have h' : (([] : List Char), rest) = (a, b) := by
        simpa [splitFirstSlash] using h
      cases h'
      simp
    · simp only [splitFirstSlash, if_neg hc, Option.map_eq_some'] at h
      obtain ⟨⟨a', b'⟩, hab, heq⟩ := h
      obtain ⟨hl, hna⟩ := ih hab
      cases heq
      exact ⟨by simp [hl], by simp [not_or, hna, Ne.symm hc]⟩

theorem splitFirstSlash_isSome {l : List Char} (h : '/' ∈ l) :
    (splitFirstSlash l).isSome := by
  rcases heq : splitFirstSlash l with _ | ab
  · induction l with
    | nil => simp at h
    | cons c rest ih =>
      by_cases hc : c = '/'
      · simp [splitFirstSlash, hc] at heq
      · simp only [splitFirstSlash, if_neg hc, Option.map_eq_none'] at heq
        rcases List.mem_cons.mp h with h0 | h0
        · exact absurd h0.symm hc
        · exact ih h0 heq
  · rfl

theorem splitSlash_ne_nil (l : List Char) : splitSlash l ≠ [] := by
  cases l with
  | nil => simp [splitSlash]
  | cons c rest =>
    by_cases hc : c = '/'
    · simp [splitSlash, hc]
    · simp only [splitSlash, if_neg hc]
      rcases h : splitSlash rest with _ | ⟨s, ss⟩ <;> simp

theorem splitSlash_no_slash {l : List Char} (h : '/' ∉ l) : splitSlash l = [l] := by
  induction l with
  | nil => rfl
  | cons c rest ih =>
    simp only [List.mem_cons, not_or] at h
    simp [splitSlash, Ne.symm h.1, ih h.2]

theorem splitSlash_append (a b : List Char) :
    splitSlash (a ++ '/' :: b) = splitSlash a ++ splitSlash b := by
  induction a with
  | nil => simp [splitSlash]
  | cons c rest ih =>
    by_cases hc : c = '/'
    · simp [splitSlash, hc, ih]
    · rcases h : splitSlash rest with _ | ⟨s, ss⟩
      · exact absurd h (splitSlash_ne_nil rest)
      · simp [splitSlash, if_neg hc, ih, h]

theorem mk_data (s : String) : String.mk s.data = s := rfl

/-- Character-level description of `_rsplit_vpath` on a path holding a
separator: the directory before the last slash and the slash-free key. -/
theorem rsplit_spec {p : String} (h : '/' ∈ p.data) :
    p.data = (_rsplit_vpath p).1.data ++ '/' :: (_rsplit_vpath p).2.data ∧
      '/' ∉ (_rsplit_vpath p).2.data := by
  have hrev : '/' ∈ p.data.reverse := List.mem_reverse.mpr h
  obtain ⟨⟨a, b⟩, hab⟩ := Option.isSome_iff_exists.mp (splitFirstSlash_isSome hrev)
  obtain ⟨hl, hna⟩ := splitFirstSlash_eq_some hab
  have hp : p.data = b.reverse ++ '/' :: a.reverse := by
    have := congrArg List.reverse hl
    simpa [List.reverse_append] using this
  simp only [_rsplit_vpath, hab]
  refine ⟨by simpa using hp, by simpa using hna⟩

theorem rsplit_no_slash {p : String} (h : '/' ∉ p.data) :
    _rsplit_vpath p = ("", p) := by
  have : splitFirstSlash p.data.reverse = none :=
    splitFirstSlash_eq_none (fun hc => h (List.mem_reverse.mp hc))
  simp [_rsplit_vpath, this]

/-- C8: path splitting is lossless and total.  For a separator-free path
`p`, `_split_vpath p = (p, "")` and `_rsplit_vpath p = ("", p)` (hence the
empty path maps to `("", "")`), and when `p` holds a separator the two
components of either split joined with one `"/"` give back `p`. -/
theorem C8_split_lossless (p : String) :
    ('/' ∉ p.data → _split_vpath p = (p, "") ∧ _rsplit_vpath p = ("", p)) ∧
    ('/' ∈ p.data →
      (_split_vpath p).1 ++ "/" ++ (_split_vpath p).2 = p ∧
      (_rsplit_vpath p).1 ++ "/" ++ (_rsplit_vpath p).2 = p) ∧
    (_split_vpath "" = ("", "") ∧ _rsplit_vpath "" = ("", "")) := by
  refine ⟨fun h => ⟨?_, rsplit_no_slash h⟩, fun h => ⟨?_, ?_⟩, rfl, rfl⟩
  · simp [_split_vpath, splitFirstSlash_eq_none h]
  · obtain ⟨⟨a, b⟩, hab⟩ := Option.isSome_iff_exists.mp (splitFirstSlash_isSome h)
    obtain ⟨hl, _⟩ := splitFirstSlash_eq_some hab
    simp only [_split_vpath, hab]
    apply String.ext
    simp [String.data_append, hl]
  · obtain ⟨hp, _⟩ := rsplit_spec h
    apply String.ext
    simp [String.data_append, hp]

/-- Witness for C8 at the concrete paths `"foo"` (no separator) and
`"a/b"` (one separator). -/
theorem C8_split_lossless_witness :
    _split_vpath "foo" = ("foo", "") ∧
      (_rsplit_vpath "a/b").1 ++ "/" ++ (_rsplit_vpath "a/b").2 = "a/b" :=
  ⟨((C8_split_lossless "foo").1 (by decide)).1,
   (((C8_split_lossless "a/b").2.1 (by decide))).2⟩

/-! ## Lemmas about traversal -/

theorem vsegs_ne_nil (p : String) : vsegs p ≠ [] := by
  simp [vsegs, splitSlash_ne_nil]

theorem walk?_append (xs ys : List String) : ∀ n : LogNode,
    walk? n (xs ++ ys) = (walk? n xs).bind (fun m => walk? m ys) := by
  induction xs with
  | nil => intro n; simp [walk?]
  | cons k rest ih =>
    intro n
    cases hf : Dict.find? n.children k with
    | none => simp [walk?, hf]
    | some c => simp [walk?, hf, ih]

theorem walk?_singleton (n : LogNode) (k : String) :
    walk? n [k] = Dict.find? n.children k := by
  cases hf : Dict.find? n.children k <;> simp [walk?, hf]

theorem setdefaultWalk_of_walk? {segs : List String} : ∀ {n m : LogNode},
    walk? n segs = some m → setdefaultWalk n segs = (n, m) := by
  induction segs with
  | nil =>
    intro n m h
    simp only [walk?, Option.some.injEq] at h
    simp [setdefaultWalk, h]
  | cons k rest ih =>
    intro n m h
    cases hf : Dict.find? n.children k with
    | none => simp [walk?, hf] at h
    | some c =>
      simp only [walk?, hf] at h
      simp [setdefaultWalk, hf, ih h, Dict.insert_find?_eq hf, LogNode.eta]

theorem setdefaultWalk_idem (segs : List String) : ∀ n : LogNode,
    setdefaultWalk (setdefaultWalk n segs).1 segs = setdefaultWalk n segs := by
  induction segs with
  | nil => intro n; rfl
  | cons k rest ih =>
    rintro ⟨d, cs⟩
    cases hf : Dict.find? cs k with
    | some c =>
      simp only [setdefaultWalk, LogNode.children, hf, LogNode.data,
        Dict.find?_insert_self, ih, Dict.insert_insert]
    | none =>
      simp only [setdefaultWalk, LogNode.children, hf, LogNode.data,
        Dict.find?_insert_self, ih, Dict.insert_insert]

theorem contains_of_walk_full {n m : LogNode} {p : String}
    (h : walk? n (vsegs p) = some m) : Logger.contains n p = true := by
  obtain h1 | ⟨xs, x, hxe⟩ := (vsegs p).eq_nil_or_concat
  · exact absurd h1 (vsegs_ne_nil p)
  · rw [List.concat_eq_append] at hxe
    rw [hxe, walk?_append] at h
    cases hxs : walk? n xs with
    | none => rw [hxs] at h; simp at h
    | some m' =>
      rw [hxs] at h
      simp only [Option.some_bind, walk?_singleton] at h
      simp [Logger.contains, hxe, List.dropLast_concat,
        List.getLastD_concat, hxs, Dict.mem, h]

theorem contains_empty_path (n : LogNode) : Logger.contains n "" = true := rfl

/-- A path whose data holds a separator is non-empty. -/
theorem ne_empty_of_slash {p : String} (h : '/' ∈ p.data) : p ≠ "" := by
  intro hp
  subst hp
  simp at h

/-- Splitting off the last segment: the full segment list of a path with a
separator is the segment list of its `_rsplit_vpath` directory followed by
the `_rsplit_vpath` key. -/
theorem vsegs_rsplit {p : String} (h : '/' ∈ p.data) :
    vsegs p = vsegs (_rsplit_vpath p).1 ++ [(_rsplit_vpath p).2] := by
  obtain ⟨hpdata, hkn⟩ := rsplit_spec h
  unfold vsegs
  rw [hpdata, splitSlash_append, splitSlash_no_slash hkn]
  simp [mk_data]

/-- If the directory part of a path is non-empty then the path holds a
separator. -/
theorem slash_of_rsplit_dir_ne {p : String} (h : (_rsplit_vpath p).1 ≠ "") :
    '/' ∈ p.data := by
  by_contra hns
  exact h (by rw [rsplit_no_slash hns])

/-- `__getitem__` leaves the tree unchanged whenever the containment check
of the full path has succeeded (the directory walk then runs entirely
through existing children). -/
theorem getitem_ok_fst {n : LogNode} {p : String} {nl : LogNode × List Val}
    (hc : Logger.contains n p = true) (h : Logger.getitem n p = .ok nl) : nl.1 = n := by
  simp only [Logger.getitem] at h
  by_cases hd : (_rsplit_vpath p).1 = ""
  · rw [hd] at h
    rw [show Logger._traverse n "" false = Except.ok (n, n) from rfl] at h
    dsimp only at h
    cases hfd : Dict.find? n.data (_rsplit_vpath p).2 with
    | none => rw [hfd] at h; simp at h
    | some lst =>
      rw [hfd] at h
      simp only [Except.ok.injEq] at h
      rw [← h]
  · have hslash : '/' ∈ p.data := slash_of_rsplit_dir_ne hd
    have hp : p ≠ "" := ne_empty_of_slash hslash
    have hv := vsegs_rsplit hslash
    have hcontains := hc
    simp only [Logger.contains, if_neg hp, hv, List.dropLast_concat,
      List.getLastD_concat] at hcontains
    cases hw : walk? n (vsegs (_rsplit_vpath p).1) with
    | none => rw [hw] at hcontains; simp at hcontains
    | some m' =>
      have hcd : Logger.contains n (_rsplit_vpath p).1 = true :=
        contains_of_walk_full hw
      have ht : Logger._traverse n (_rsplit_vpath p).1 false = .ok (n, m') := by
        simp [Logger._traverse, hd, hcd, setdefaultWalk_of_walk? hw]
      rw [ht] at h
      dsimp only at h
      cases hfd : Dict.find? m'.data (_rsplit_vpath p).2 with
      | none => rw [hfd] at h; simp at h
      | some lst =>
        rw [hfd] at h
        simp only [Except.ok.injEq] at h
        rw [← h]

/-- `get` leaves the tree unchanged on every successful call. -/
theorem get_ok_fst {n : LogNode} {p : String} {r : LogNode × Option (List Val)}
    (h : Logger.get n p = .ok r) : r.1 = n := by
  unfold Logger.get at h
  by_cases hc : Logger.contains n p
  · rw [if_pos hc] at h
    cases hgi : Logger.getitem n p with
    | error e => rw [hgi] at h; simp at h
    | ok nl =>
      rw [hgi] at h
      simp only [Except.ok.injEq] at h
      rw [← h]
      exact getitem_ok_fst hc hgi
  · rw [if_neg hc] at h
    simp only [Except.ok.injEq] at h
    rw [← h]

/-- C1 (amended): traversal without creation leaves the tree unchanged as
long as the requested path resolves entirely through `children` (and when
the containment check fails it raises and the tree is untouched); the
empty path returns the root directly, and `get` (like `__contains__`,
which only reads) never changes the tree.  The amendment drops the
original blanket statement because of the `setdefault` walk: when the
final segment exists only as a data key, `_traverse(p, create=False)`
inserts an empty child node (see the counterexample). -/
theorem C1_traverse_read_frame :
    (∀ n : LogNode, Logger._traverse n "" false = .ok (n, n)) ∧
    (∀ (n m : LogNode) (p : String), p ≠ "" → walk? n (vsegs p) = some m →
      Logger._traverse n p false = .ok (n, m)) ∧
    (∀ (n : LogNode) (p : String), Logger.contains n p = false →
      Logger._traverse n p false = .error ("vpath " ++ p ++ " does not exist.")) ∧
    (∀ (n : LogNode) (p : String) (r : LogNode × Option (List Val)),
      Logger.get n p = .ok r → r.1 = n) := by
  refine ⟨fun n => rfl, fun n m p hp h => ?_, fun n p h => ?_, fun n p r hr => get_ok_fst hr⟩
  · have hc := contains_of_walk_full h
    simp [Logger._traverse, if_neg hp, hc, setdefaultWalk_of_walk? h]
  · by_cases hp : p = ""
    · subst hp
      rw [contains_empty_path] at h
      simp at h
    · simp [Logger._traverse, if_neg hp, h]

/-- Witness for C1 at concrete inputs: a child-resolved path is returned
without mutation, a missing path raises, and a successful `get` returns
the unchanged tree. -/
theorem C1_traverse_read_frame_witness :
    Logger._traverse (LogNode.mk [] [("a", LogNode.mk [] [])]) "a" false
      = .ok (LogNode.mk [] [("a", LogNode.mk [] [])], LogNode.mk [] []) ∧
    Logger._traverse (LogNode.mk [] []) "b" false
      = .error ("vpath " ++ "b" ++ " does not exist.") ∧
    ((LogNode.mk [] [] : LogNode), (none : Option (List Val))).1 = LogNode.mk [] [] :=
  ⟨C1_traverse_read_frame.2.1 _ _ "a" (by decide) rfl,
   C1_traverse_read_frame.2.2.1 _ "b" rfl,
   C1_traverse_read_frame.2.2.2 (LogNode.mk [] []) "q" _ rfl⟩

/-- Counterexample to C1 as stated: on a tree whose root has the data key
`"x"` and no children, `_traverse("x", create=False)` passes the
containment check (the key exists in `data`) and then the `setdefault`
walk inserts a fresh empty child `"x"` — the children mapping of the root
changes. -/
theorem C1_traverse_read_frame_cex :
    Logger._traverse (LogNode.mk [("x", [Val.int 1])] []) "x" false =
      .ok (LogNode.mk [("x", [Val.int 1])] [("x", LogNode.mk [] [])], LogNode.mk [] []) ∧
    LogNode.mk [("x", [Val.int 1])] [("x", LogNode.mk [] [])] ≠
      LogNode.mk [("x", [Val.int 1])] [] :=
  ⟨rfl, by simp⟩

/-- C7: creation is idempotent — `_traverse(p, create=True)` run twice
returns the same node both times and the second run leaves the tree
unchanged. -/
theorem C7_traverse_create_idempotent (n : LogNode) (p : String) :
    ∃ w m, Logger._traverse n p true = .ok (w, m) ∧
      Logger._traverse w p true = .ok (w, m) := by
  by_cases hp : p = ""
  · subst hp
    exact ⟨n, n, rfl, rfl⟩
  · refine ⟨(setdefaultWalk n (vsegs p)).1, (setdefaultWalk n (vsegs p)).2, ?_, ?_⟩
    · simp [Logger._traverse, if_neg hp]
    · simp [Logger._traverse, if_neg hp, setdefaultWalk_idem]

/-! ## Behaviour of `get` and of logging -/

/-- Evaluation of `__getitem__` once the directory walk is known to
resolve through existing children (so the `setdefault` walk is inert). -/
theorem getitem_eval {n m : LogNode} {p : String} (hw : walk? n (dirSegs p) = some m) :
    Logger.getitem n p =
      match Dict.find? m.data (_rsplit_vpath p).2 with
      | some lst => .ok (n, lst)
      | none => .error ("KeyError: " ++ (_rsplit_vpath p).2) := by
  simp only [Logger.getitem]
  by_cases hd : (_rsplit_vpath p).1 = ""
  · simp only [dirSegs, if_pos hd] at hw
    simp only [walk?, Option.some.injEq] at hw
    subst hw
    rw [hd]
    rw [show Logger._traverse n "" false = Except.ok (n, n) from rfl]
  · simp only [dirSegs, if_neg hd] at hw
    have hcd : Logger.contains n (_rsplit_vpath p).1 = true :=
      contains_of_walk_full hw
    have ht : Logger._traverse n (_rsplit_vpath p).1 false = .ok (n, m) := by
      simp [Logger._traverse, if_neg hd, hcd, setdefaultWalk_of_walk? hw]
    rw [ht]

/-- C2 (amended): `get(path, default)` returns `default` instead of
raising whenever the containment check fails, and returns the stored list
when the path resolves to a data entry; but when the contained path names
a sub-branch only (the final segment is a child key with no data list at
the final directory node), `get` propagates the `KeyError` of indexed
access instead of returning `default`.  `none` in the result models the
returned default. -/
theorem C2_get_behaviour :
    (∀ (n : LogNode) (p : String), Logger.contains n p = false →
      Logger.get n p = .ok (n, none)) ∧
    (∀ (n m : LogNode) (p : String) (l : List Val), Logger.contains n p = true →
      walk? n (dirSegs p) = some m →
      Dict.find? m.data (_rsplit_vpath p).2 = some l →
      Logger.get n p = .ok (n, some l)) ∧
    (∀ (n m : LogNode) (p : String), Logger.contains n p = true →
      walk? n (dirSegs p) = some m →
      Dict.find? m.data (_rsplit_vpath p).2 = none →
      Logger.get n p = .error ("KeyError: " ++ (_rsplit_vpath p).2)) := by
  refine ⟨fun n p h => ?_, fun n m p l hc hw hf => ?_, fun n m p hc hw hf => ?_⟩
  · simp [Logger.get, h]
  · simp [Logger.get, hc, getitem_eval hw, hf]
  · simp [Logger.get, hc, getitem_eval hw, hf]

/-- Witness for C2 at concrete inputs: a missing path yields the default,
a data path yields its list, and a branch-only path raises. -/
theorem C2_get_behaviour_witness :
    Logger.get (LogNode.mk [] []) "x" = .ok (LogNode.mk [] [], none) ∧
    Logger.get (LogNode.mk [("v", [Val.int 5])] []) "v"
      = .ok (LogNode.mk [("v", [Val.int 5])] [], some [Val.int 5]) ∧
    Logger.get (LogNode.mk [] [("a", LogNode.mk [] [("b", LogNode.mk [] [])])]) "a/b"
      = .error ("KeyError: " ++ "b") :=
  ⟨C2_get_behaviour.1 _ "x" rfl,
   C2_get_behaviour.2.1 _ _ "v" [Val.int 5] rfl rfl rfl,
   C2_get_behaviour.2.2 _ (LogNode.mk [] [("b", LogNode.mk [] [])]) "a/b" rfl rfl rfl⟩

/-- Counterexample to C2 as stated: on a tree holding only the branch
`a/b` (no data), `get("a/b")` raises a `KeyError` instead of returning the
default — the path is contained, so `get` calls `__getitem__`, which fails
because `"b"` exists only in `children`. -/
theorem C2_get_never_fails_cex :
    Logger.get (LogNode.mk [] [("a", LogNode.mk [] [("b", LogNode.mk [] [])])]) "a/b"
      = .error ("KeyError: " ++ "b") := rfl

/-- `logOp` splices the list with the value's iteration or with the
one-element list, on the right. -/
theorem logOp_eq (v : Val) (l : List Val) :
    logOp v l = l ++ (if v.iterable then v.elems else [v]) := by
  by_cases h : v.iterable <;> simp [logOp, h]

theorem walk?_createWalkUpd (segs : List String) : ∀ (n : LogNode) (f : LogNode → LogNode),
    walk? (createWalkUpd n segs f) segs = some (f (reachD n segs)) := by
  induction segs with
  | nil => intro n f; rfl
  | cons k rest ih =>
    rintro ⟨d, cs⟩ f
    simp only [createWalkUpd, walk?, LogNode.children, Dict.find?_insert_self, reachD, ih]

/-- C3 (amended): `log(path, value)` appends `value` as a single element
when it is not iterable and splices its elements when it is iterable; a
plain scalar is appended whole, a list is unpacked element-by-element, and
the scenario `log("v", 5); get("v") == [5]; log("v", [6, 7]);
get("v") == [5, 6, 7]` holds.  A string, however, counts as iterable and
is spliced into its one-character strings (see the counterexample), so the
original "a string is appended as one element" is dropped. -/
theorem C3_log_append_extend :
    (∀ (n : LogNode) (p : String) (v : Val),
      ∃ m, walk? (Logger._log_vpaths_vals n [(p, v)]) (dirSegs p) = some m ∧
        Dict.find? m.data (_rsplit_vpath p).2 =
          some (((Dict.find? (reachD n (dirSegs p)).data (_rsplit_vpath p).2).getD [])
            ++ (if v.iterable then v.elems else [v]))) ∧
    (let n1 := Logger._log_vpaths_vals (LogNode.mk [] []) [("v", Val.int 5)]
     let n2 := Logger._log_vpaths_vals n1 [("v", Val.list [Val.int 6, Val.int 7])]
     Logger.get n1 "v" = .ok (n1, some [Val.int 5]) ∧
     Logger.get n2 "v" = .ok (n2, some [Val.int 5, Val.int 6, Val.int 7])) := by
  constructor
  · intro n p v
    have h := walk?_createWalkUpd (dirSegs p) n
      (fun m => LogNode.mk (Dict.updD [] m.data (_rsplit_vpath p).2 (logOp v)) m.children)
    refine ⟨_, h, ?_⟩
    simp only [LogNode.data, Dict.find?_updD, logOp_eq]
  · exact ⟨rfl, rfl⟩

/-- Counterexample to C3 as stated: logging the string `"ab"` does not
append it as one element — `isinstance("ab", Iterable)` holds, so
`list.extend` splices the two one-character strings. -/
theorem C3_log_append_extend_cex :
    (let n := Logger._log_vpaths_vals (LogNode.mk [] []) [("v", Val.str "ab")]
     Logger.get n "v" = .ok (n, some [Val.str "a", Val.str "b"])) ∧
    [Val.str "a", Val.str "b"] ≠ [Val.str "ab"] :=
  ⟨rfl, by simp⟩

/-- C9: `log` accepts exactly one positional argument (a vpath-to-value
mapping) or exactly two (a vpath and a value); with zero or three or more
arguments it raises the usage `TypeError` and performs no tree update. -/
theorem C9_log_arity :
    (∀ (n : LogNode) (m : List (String × Val)),
      Logger.log n [Val.dict m] = .ok (Logger._log_vpaths_vals n m)) ∧
    (∀ (n : LogNode) (p : String) (v : Val),
      Logger.log n [Val.str p, v] = .ok (Logger._log_vpaths_vals n [(p, v)])) ∧
    (∀ (n : LogNode) (args : List Val), args.length = 0 ∨ 3 ≤ args.length →
      Logger.log n args
        = .error "Method has to be called with either one or two arguments.") := by
  refine ⟨fun n m => ?_, fun n p v => ?_, fun n args h => ?_⟩
  · simp [Logger.log]
  · simp [Logger.log]
  · have hcond : ¬(1 ≤ args.length ∧ args.length ≤ 2) := by omega
    simp [Logger.log, hcond]

/-- Witness for C9: zero arguments and three arguments both raise the
usage error. -/
theorem C9_log_arity_witness :
    Logger.log (LogNode.mk [] []) []
      = .error "Method has to be called with either one or two arguments." ∧
    Logger.log (LogNode.mk [] []) [Val.int 1, Val.int 2, Val.int 3]
      = .error "Method has to be called with either one or two arguments." :=
  ⟨C9_log_arity.2.2 _ [] (Or.inl rfl),
   C9_log_arity.2.2 _ [Val.int 1, Val.int 2, Val.int 3] (Or.inr (by decide))⟩

/-- C4: a child logger aliases the parent's tree.  On a fresh tree, after
`child = logger.make_child("a/b")` the child's root is the very node at
`a/b` of the parent's tree; `child.log("x", 1)` makes
`logger.get("a/b/x") == [1]`, and `logger.log("a/b/y", 2)` makes
`child.get("y") == [2]`. -/
theorem C4_child_logger_aliases :
    (let w0 := LogNode.mk [] []
     let mc := Logger.make_child w0 "a/b"
     let w2 := Logger.logAt mc.1 ["a", "b"] "x" (Val.int 1)
     let w3 := Logger._log_vpaths_vals w2 [("a/b/y", Val.int 2)]
     vsegs "a/b" = ["a", "b"] ∧
     walk? mc.1 ["a", "b"] = some mc.2 ∧
     Logger.get w2 "a/b/x" = .ok (w2, some [Val.int 1]) ∧
     (∃ sub, Logger.getAt w3 ["a", "b"] "y" = some (.ok (sub, some [Val.int 2])))) :=
  ⟨rfl, rfl, rfl, ⟨_, rfl⟩⟩

/-! ## Structural export and clearing -/

mutual

/-- A node parses to the empty dict exactly when neither it nor any
descendant holds a data entry. -/
theorem parse_eq_nil_iff : ∀ n : LogNode,
    (LogNode.parse n = [] ↔ LogNode.hasData n = false)
  | .mk d cs => by
    rw [show LogNode.parse (.mk d cs)
        = parseChildren (d.map fun kv => (kv.1, PVal.vals kv.2)) cs from rfl]
    rw [parseChildren_eq_nil_iff cs]
    simp [LogNode.hasData, List.isEmpty_iff, List.map_eq_nil_iff]

/-- The parse loop returns the empty dict exactly when it started from the
empty dict and no child contributed anything. -/
theorem parseChildren_eq_nil_iff : ∀ (cs : List (String × LogNode))
    (acc : List (String × PVal)),
    (parseChildren acc cs = [] ↔ (acc = [] ∧ hasDataChildren cs = false))
  | [], acc => by simp [parseChildren, hasDataChildren]
  | (k, c) :: rest, acc => by
    have hc := parse_eq_nil_iff c
    by_cases hpc : LogNode.parse c = []
    · have hemp : (LogNode.parse c).isEmpty := by simp [hpc]
      simp only [parseChildren, if_pos hemp]
      rw [parseChildren_eq_nil_iff rest acc]
      simp [hasDataChildren, hc.mp hpc]
    · have hemp : ¬(LogNode.parse c).isEmpty := by simpa [List.isEmpty_iff] using hpc
      have hd : LogNode.hasData c = true := by
        cases h : LogNode.hasData c with
        | true => rfl
        | false => exact absurd (hc.mpr h) hpc
      simp only [parseChildren, if_neg hemp]
      rw [parseChildren_eq_nil_iff rest (Dict.insert acc k (PVal.dict (LogNode.parse c)))]
      simp [Dict.insert_ne_nil, hasDataChildren, hd]

end

/-- Children whose key never maps to a non-empty export leave the lookup
of that key in the parse result untouched. -/
theorem parseChildren_find_preserve {k : String} :
    ∀ (cs : List (String × LogNode)) (acc : List (String × PVal)),
      (∀ kc ∈ cs, kc.1 = k → LogNode.parse kc.2 = []) →
      Dict.find? (parseChildren acc cs) k = Dict.find? acc k := by
  intro cs
  induction cs with
  | nil => intro acc _; rfl
  | cons kc rest ih =>
    obtain ⟨k', c⟩ := kc
    intro acc h
    by_cases hpc : (LogNode.parse c).isEmpty
    · simp only [parseChildren, if_pos hpc]
      exact ih acc (fun kc hm hk => h kc (List.mem_cons_of_mem _ hm) hk)
    · have hk' : k' ≠ k := by
        intro hkk
        rw [h (k', c) (List.mem_cons_self _ _) hkk] at hpc
        exact hpc List.isEmpty_nil
      simp only [parseChildren, if_neg hpc]
      rw [ih _ (fun kc hm hk => h kc (List.mem_cons_of_mem _ hm) hk)]
      exact Dict.find?_insert_ne acc (PVal.dict (LogNode.parse c)) hk'

/-- When the (unique, by dict well-formedness) child at key `k` exports a
non-empty dict, the parse loop binds `k` to that export. -/
theorem parseChildren_find_child {k : String} {c : LogNode} :
    ∀ (cs : List (String × LogNode)) (acc : List (String × PVal)),
      (cs.map Prod.fst).Nodup →
      Dict.find? cs k = some c → LogNode.parse c ≠ [] →
      Dict.find? (parseChildren acc cs) k = some (PVal.dict (LogNode.parse c)) := by
  intro cs
  induction cs with
  | nil => intro acc _ hf _; simp [Dict.find?] at hf
  | cons kc rest ih =>
    obtain ⟨k', c'⟩ := kc
    intro acc hnd hf hne
    simp only [List.map_cons, List.nodup_cons] at hnd
    by_cases hk : k' = k
    · subst hk
      simp [Dict.find?] at hf
      subst hf
      have hpc : ¬(LogNode.parse c').isEmpty := by simpa [List.isEmpty_iff] using hne
      simp only [parseChildren, if_neg hpc]
      rw [parseChildren_find_preserve rest _ ?_]
      · exact Dict.find?_insert_self ..
      · intro kc hm hkc
        exact absurd (List.mem_map.mpr ⟨kc, hm, hkc⟩) hnd.1
    · simp only [Dict.find?, if_neg hk] at hf
      by_cases hpc : (LogNode.parse c').isEmpty
      · simp only [parseChildren, if_pos hpc]
        exact ih _ hnd.2 hf hne
      · simp only [parseChildren, if_neg hpc]
        exact ih _ hnd.2 hf hne

/-- C5: structural export is correct and prunes empty branches.  The
concrete bulk-log scenario exports exactly the implied nesting in logging
order; a node parses to the empty dict precisely when no data lives
anywhere in its subtree; and a child whose subtree holds no data (and
whose key is no data key either) is absent from the export. -/
theorem C5_as_dict_export :
    (Logger.as_dict (Logger._log_vpaths_vals (LogNode.mk [] [])
        [("a/v", Val.int 1), ("b/v", Val.list [Val.int 2, Val.int 3])]) =
      [("a", PVal.dict [("v", PVal.vals [Val.int 1])]),
       ("b", PVal.dict [("v", PVal.vals [Val.int 2, Val.int 3])])]) ∧
    (∀ n : LogNode, LogNode.parse n = [] ↔ LogNode.hasData n = false) ∧
    (∀ (n c : LogNode) (k : String), (n.children.map Prod.fst).Nodup →
      Dict.find? n.children k = some c → LogNode.hasData c = false →
      Dict.find? n.data k = none → Dict.find? (LogNode.parse n) k = none) := by
  refine ⟨rfl, parse_eq_nil_iff, fun n c k hnd hf hhd hfd => ?_⟩
  obtain ⟨d, cs⟩ := n
  simp only [LogNode.children] at hnd hf
  simp only [LogNode.data] at hfd
  rw [show LogNode.parse (.mk d cs)
      = parseChildren (d.map fun kv => (kv.1, PVal.vals kv.2)) cs from rfl]
  rw [parseChildren_find_preserve cs _ ?_]
  · rw [Dict.find?_map, hfd]
    rfl
  · intro kc hm hk
    have hfm := Dict.find?_eq_of_mem_nodup hnd hm
    rw [hk, hf] at hfm
    rw [(Option.some.inj hfm).symm]
    exact (parse_eq_nil_iff c).mpr hhd

/-- Witness for C5's pruning part: a data-less child `"e"` next to a data
key `"d"` is absent from the export. -/
theorem C5_as_dict_export_witness :
    Dict.find? (LogNode.parse (LogNode.mk [("d", [Val.int 7])]
        [("e", LogNode.mk [] [])])) "e" = none :=
  C5_as_dict_export.2.2 _ (LogNode.mk [] []) "e" (by decide) rfl rfl rfl

theorem find?_clearChildren (cs : List (String × LogNode)) (k : String) :
    Dict.find? (clearChildren cs) k = (Dict.find? cs k).map LogNode.clear := by
  induction cs with
  | nil => rfl
  | cons kc rest ih =>
    obtain ⟨k', c⟩ := kc
    by_cases h : k' = k <;> simp [clearChildren, Dict.find?, h, ih]

theorem clearChildren_keys (cs : List (String × LogNode)) :
    (clearChildren cs).map Prod.fst = cs.map Prod.fst := by
  induction cs with
  | nil => rfl
  | cons kc rest ih =>
    obtain ⟨k', c⟩ := kc
    simp [clearChildren, ih]

theorem walk?_clear (q : List String) : ∀ n : LogNode,
    walk? (LogNode.clear n) q = (walk? n q).map LogNode.clear := by
  induction q with
  | nil => intro n; rfl
  | cons k rest ih =>
    rintro ⟨d, cs⟩
    simp only [LogNode.clear, walk?, LogNode.children, find?_clearChildren]
    cases hf : Dict.find? cs k <;> simp [ih]

theorem updateAt_walk_append (base : List String) (f : LogNode → LogNode) :
    ∀ {w m : LogNode}, walk? w base = some m →
      ∀ q, walk? (updateAt w base f) (base ++ q) = walk? (f m) q := by
  induction base with
  | nil =>
    intro w m h q
    simp only [walk?, Option.some.injEq] at h
    subst h
    rfl
  | cons k rest ih =>
    rintro ⟨d, cs⟩ m h q
    simp only [walk?, LogNode.children] at h
    cases hf : Dict.find? cs k with
    | none => rw [hf] at h; simp at h
    | some c =>
      rw [hf] at h
      simp only [updateAt, LogNode.children, hf, List.cons_append, walk?,
        Dict.find?_insert_self]
      exact ih h q

theorem updateAt_walk_frame (base : List String) (f : LogNode → LogNode) :
    ∀ {w m : LogNode}, walk? w base = some m →
      ∀ q, ¬ base <+: q →
        (walk? (updateAt w base f) q).map LogNode.data
          = (walk? w q).map LogNode.data := by
  induction base with
  | nil => intro w m _ q hq; exact absurd (List.nil_prefix) hq
  | cons k rest ih =>
    rintro ⟨d, cs⟩ m h q hq
    simp only [walk?, LogNode.children] at h
    cases hf : Dict.find? cs k with
    | none => rw [hf] at h; simp at h
    | some c =>
      rw [hf] at h
      cases q with
      | nil => simp [updateAt, LogNode.children, hf, walk?, LogNode.data]
      | cons a qs =>
        by_cases hak : a = k
        · subst hak
          have hq' : ¬ rest <+: qs := fun hpre =>
            hq (List.cons_prefix_cons.mpr ⟨rfl, hpre⟩)
          simp only [updateAt, LogNode.children, hf, walk?, Dict.find?_insert_self]
          exact ih h qs hq'
        · have hne : a ≠ k := hak
          simp only [updateAt, LogNode.children, hf, walk?,
            Dict.find?_insert_ne cs (updateAt c rest f) (fun hkk => hne hkk.symm)]

/-- C6: `clear` empties the data of the logger's root node and of every
descendant while keeping the children structure intact; outside the
cleared subtree — on ancestors and siblings, i.e. on every path the base
is no prefix of — the data of every node is untouched.  With `base = []`
(a root logger) the first conjunct covers all nodes of the tree,
including those aliased by child loggers. -/
theorem C6_clear_subtree (w m : LogNode) (base : List String)
    (h : walk? w base = some m) :
    (∀ q, walk? (Logger.clearAt w base) (base ++ q)
        = (walk? w (base ++ q)).map LogNode.clear) ∧
    (∀ q, ¬ base <+: q →
      (walk? (Logger.clearAt w base) q).map LogNode.data
        = (walk? w q).map LogNode.data) ∧
    (∀ x : LogNode, (LogNode.clear x).data = [] ∧
      (LogNode.clear x).children.map Prod.fst = x.children.map Prod.fst) := by
  refine ⟨fun q => ?_, fun q hq => updateAt_walk_frame base LogNode.clear h q hq,
    fun x => ⟨?_, ?_⟩⟩
  · rw [Logger.clearAt, updateAt_walk_append base LogNode.clear h q, walk?_clear,
      walk?_append, h]
    rfl
  · obtain ⟨d, cs⟩ := x
    rfl
  · obtain ⟨d, cs⟩ := x
    exact clearChildren_keys cs

/-- Witness for C6: clearing the child logger at `["child"]` empties the
child's data while the root's own data mapping survives. -/
theorem C6_clear_subtree_witness :
    walk? (Logger.clearAt (LogNode.mk [("p", [Val.int 9])]
        [("child", LogNode.mk [("q", [Val.int 5])] [])]) ["child"]) (["child"] ++ [])
      = (walk? (LogNode.mk [("p", [Val.int 9])]
          [("child", LogNode.mk [("q", [Val.int 5])] [])]) (["child"] ++ [])).map
            LogNode.clear ∧
    (walk? (Logger.clearAt (LogNode.mk [("p", [Val.int 9])]
        [("child", LogNode.mk [("q", [Val.int 5])] [])]) ["child"]) []).map LogNode.data
      = (walk? (LogNode.mk [("p", [Val.int 9])]
          [("child", LogNode.mk [("q", [Val.int 5])] [])]) []).map LogNode.data := by
  refine ⟨(C6_clear_subtree (LogNode.mk [("p", [Val.int 9])]
      [("child", LogNode.mk [("q", [Val.int 5])] [])])
      (LogNode.mk [("q", [Val.int 5])] []) ["child"] rfl).1 [],
    (C6_clear_subtree (LogNode.mk [("p", [Val.int 9])]
      [("child", LogNode.mk [("q", [Val.int 5])] [])])
      (LogNode.mk [("q", [Val.int 5])] []) ["child"] rfl).2.1 [] ?_⟩
  simp [List.prefix_nil]

/-- C10: a key present in both `data` and `children` of the same node is
resolved by `parse` in favour of the child when the child's export is
non-empty (the `result[key] = parsed` assignment overwrites the data
entry); only when the child's export is empty does the data list survive
in the output. -/
theorem C10_parse_collision (d : List (String × List Val)) (cs : List (String × LogNode))
    (k : String) (l : List Val) (c : LogNode)
    (hnd : (cs.map Prod.fst).Nodup)
    (hfd : Dict.find? d k = some l) (hfc : Dict.find? cs k = some c) :
    (LogNode.parse c ≠ [] →
      Dict.find? (LogNode.parse (.mk d cs)) k = some (PVal.dict (LogNode.parse c))) ∧
    (LogNode.parse c = [] →
      Dict.find? (LogNode.parse (.mk d cs)) k = some (PVal.vals l)) := by
  constructor
  · intro hne
    rw [show LogNode.parse (.mk d cs)
        = parseChildren (d.map fun kv => (kv.1, PVal.vals kv.2)) cs from rfl]
    exact parseChildren_find_child cs _ hnd hfc hne
  · intro hnil
    rw [show LogNode.parse (.mk d cs)
        = parseChildren (d.map fun kv => (kv.1, PVal.vals kv.2)) cs from rfl]
    rw [parseChildren_find_preserve cs _ ?_]
    · rw [Dict.find?_map, hfd]
      rfl
    · intro kc hm hk
      have hfm := Dict.find?_eq_of_mem_nodup hnd hm
      rw [hk, hfc] at hfm
      rw [(Option.some.inj hfm).symm]
      exact hnil

/-- Witness for C10 at concrete collisions: a child with data wins over
the data entry; an empty child loses to it. -/
theorem C10_parse_collision_witness :
    Dict.find? (LogNode.parse (LogNode.mk [("k", [Val.int 1])]
        [("k", LogNode.mk [("z", [Val.int 2])] [])])) "k"
      = some (PVal.dict [("z", PVal.vals [Val.int 2])]) ∧
    Dict.find? (LogNode.parse (LogNode.mk [("k", [Val.int 1])]
        [("k", LogNode.mk [] [])])) "k" = some (PVal.vals [Val.int 1]) :=
  ⟨(C10_parse_collision [("k", [Val.int 1])]
      [("k", LogNode.mk [("z", [Val.int 2])] [])] "k" [Val.int 1]
      (LogNode.mk [("z", [Val.int 2])] []) (by decide) rfl rfl).1
      (by rw [show LogNode.parse (LogNode.mk [("z", [Val.int 2])] [])
            = [("z", PVal.vals [Val.int 2])] from rfl]; simp),
   (C10_parse_collision [("k", [Val.int 1])] [("k", LogNode.mk [] [])] "k"
      [Val.int 1] (LogNode.mk [] []) (by decide) rfl rfl).2 rfl⟩

end Datalogging
